import Mathlib

/-!
Verification development for the tsa condition-expression compiler and
temporal evaluator (tsatool-app).

Shallow embedding of the relevant parts of the source:
  src/tsa/utils.py       (eliminate_umlauts, to_pg_identifier)
  src/tsa/block.py       (Block.unpack_logic)
  src/tsa/condition.py   (Condition.make_blocks incl. tokenizer, dedup,
                          validate_order, alias reconstruction;
                          set_summary_attrs, fetch_results_from_db;
                          the generated SQL master expression)
  src/tsa/cond_collection.py (CondCollection.add_condition)

Python strings are modelled as Lean String / List Char.  Python functions
that raise are modelled with Except; an exception class that the source
does not itself raise deliberately (IndexError from indexing an empty or
too-short sequence, ValueError from int('') and similar) is modelled by a
dedicated error constructor so that crash paths stay distinguishable from
the deliberate ValueError paths.

Note on the source text: condition.py line 310 reads "if has errors:",
an evident typo for "if has_errors:" (the variable assigned on line 309);
the embedding uses the intended variable.  Python str.isalnum/str.isdigit
are Unicode-aware; they are modelled at their ASCII behaviour, which is
exact for every identifier the test-suite and examples use.
-/

/-! ## Python string primitives -/

/-- Python whitespace characters as used by str.split() / str.strip()
(ASCII subset; the condition DSL only ever contains these). -/
def isPySpace (c : Char) : Bool :=
  c = ' ' || c = '\t' || c = '\n' || c = '\r' || c = '\x0b' || c = '\x0c'

/-- Python str.strip(): drop leading and trailing whitespace. -/
def pyStripL (cs : List Char) : List Char :=
  ((cs.dropWhile isPySpace).reverse.dropWhile isPySpace).reverse

def pyStrip (s : String) : String := ⟨pyStripL s.data⟩

/-- Auxiliary for Python str.split() with no argument: maximal runs of
non-whitespace characters; cur is the current run, reversed. -/
def splitWsAux : List Char → List Char → List (List Char)
  | [], cur => if cur = [] then [] else [cur.reverse]
  | c :: rest, cur =>
    if isPySpace c then
      if cur = [] then splitWsAux rest [] else cur.reverse :: splitWsAux rest []
    else splitWsAux rest (c :: cur)

/-- Python str.split() with no argument. -/
def pySplitWs (cs : List Char) : List (List Char) := splitWsAux cs []

/-- sep.join(pieces) at the character-list level. -/
def intercalateL (sep : List Char) : List (List Char) → List Char
  | [] => []
  | [x] => x
  | x :: y :: rest => x ++ sep ++ intercalateL sep (y :: rest)

/-- Line 169 of condition.py: value = ' '.join(value.split()). -/
def normalizeWsL (cs : List Char) : List Char := intercalateL [' '] (pySplitWs cs)

/-- Python c.lower() restricted to ASCII plus the two umlaut letters that
eliminate_umlauts cares about (Python str.lower maps Ä to ä and Ö to ö). -/
def pyLowerChar (c : Char) : Char :=
  if c = 'Ä' then 'ä' else if c = 'Ö' then 'ö' else c.toLower

def pyLowerL (cs : List Char) : List Char := cs.map pyLowerChar

/-- utils.eliminate_umlauts: converts ä and ö into a and o (both cases). -/
def eliminateUmlautsChar (c : Char) : Char :=
  if c = 'ä' then 'a'
  else if c = 'Ä' then 'A'
  else if c = 'ö' then 'o'
  else if c = 'Ö' then 'O'
  else c

def eliminateUmlautsL (cs : List Char) : List Char := cs.map eliminateUmlautsChar

def eliminateUmlauts (s : String) : String := ⟨eliminateUmlautsL s.data⟩

/-- Python x.replace(' ', '_') (single-character pattern, hence a map). -/
def underscoreSpacesL (cs : List Char) : List Char :=
  cs.map fun c => if c = ' ' then '_' else c

/-- Python str.isalnum at ASCII (letters and digits). -/
def isPyAlnum (c : Char) : Bool := c.isAlphanum

/-! ## utils.to_pg_identifier -/

/-- Identifiers used in database and thus not allowed as condition
identifiers (utils.py DISABLED_IDENTIFIERS). -/
def DISABLED_IDENTIFIERS : List String :=
  ["stations", "statobs", "sensors", "seobs", "laskennallinen_anturi", "tiesaa_asema"]

/-- Error outcomes of to_pg_identifier.  reservedId/leadingDigit/tooLong/
invalidChar are the deliberate ValueError branches; emptyIndexCrash models
the uncaught IndexError that Python raises at x[0] when x is empty (there
is no empty-input check in the source). -/
inductive PgIdErr
  | reservedId
  | leadingDigit
  | tooLong
  | invalidChar
  | emptyIndexCrash
  deriving DecidableEq, Repr

/-- utils.to_pg_identifier: strip, lowercase, eliminate umlauts, replace
spaces by underscores, then validate.  The length guard in the source is
len(x) > 63 even though its own docstring and error message say the
maximum is 40 characters. -/
def toPgIdentifier (x : String) : Except PgIdErr String :=
  let x1 := underscoreSpacesL (eliminateUmlautsL (pyLowerL (pyStripL x.data)))
  let xs : String := ⟨x1⟩
  if xs ∈ DISABLED_IDENTIFIERS then .error .reservedId
  else
    match x1 with
    | [] => .error .emptyIndexCrash
    | c0 :: _ =>
      if c0.isDigit then .error .leadingDigit
      else if x1.length > 63 then .error .tooLong
      else if x1.any (fun c => !(isPyAlnum c || c = '_')) then .error .invalidChar
      else .ok xs

/-- The pure normalization part of to_pg_identifier (the value that the
validation steps inspect). -/
def pgNormalizeL (x : String) : List Char :=
  underscoreSpacesL (eliminateUmlautsL (pyLowerL (pyStripL x.data)))

instance {e a : Type} [DecidableEq e] [DecidableEq a] : DecidableEq (Except e a) :=
  fun x y =>
    match x, y with
    | .ok v, .ok w => if h : v = w then .isTrue (by rw [h]) else .isFalse (by simp [h])
    | .error v, .error w => if h : v = w then .isTrue (by rw [h]) else .isFalse (by simp [h])
    | .ok _, .error _ => .isFalse (by simp)
    | .error _, .ok _ => .isFalse (by simp)

/-! ## Substring primitives (Python "in", str.count, str.split(sep)) -/

/-- Python "pat in s" substring test. -/
def listContains (pat : List Char) : List Char → Bool
  | [] => pat.isEmpty
  | c :: rest => pat.isPrefixOf (c :: rest) || listContains pat rest

/-- Fuelled helper for Python str.count: non-overlapping occurrences,
scanning left to right.  Fuel = length of the scanned list is always
sufficient because every step consumes at least one character. -/
def countOccF (pat : List Char) : Nat → List Char → Nat
  | _, [] => 0
  | 0, _ => 0
  | fuel + 1, c :: rest =>
    if pat.isPrefixOf (c :: rest) then
      countOccF pat fuel (rest.drop (pat.length - 1)) + 1
    else countOccF pat fuel rest

/-- Python s.count(pat) for non-empty pat. -/
def countOcc (pat cs : List Char) : Nat := countOccF pat cs.length cs

/-- Fuelled helper for Python str.split(sep): split on every
non-overlapping occurrence of sep, keeping empty pieces. -/
def splitOnLF (sep : List Char) : Nat → List Char → List Char → List (List Char)
  | _, [], cur => [cur.reverse]
  | 0, cs, cur => [cur.reverse ++ cs]
  | fuel + 1, c :: rest, cur =>
    if sep.isPrefixOf (c :: rest) then
      cur.reverse :: splitOnLF sep fuel ((c :: rest).drop sep.length) []
    else splitOnLF sep fuel rest (c :: cur)

/-- Python s.split(sep) for non-empty sep. -/
def splitOnL (sep cs : List Char) : List (List Char) := splitOnLF sep cs.length cs []

/-! ## block.Block (unpack_logic) -/

/-- The binary operators considered by Block.unpack_logic, in source
order; each must be surrounded by whitespace. -/
def binopsStr : List String := [" = ", " <> ", " > ", " < ", " >= ", " <= ", " in "]

/-- The loop over binops in unpack_logic: total occurrence count and the
last operator (in list order) found in the raw logic. -/
def binopScan (raw : List Char) : Nat × Option (List Char) :=
  binopsStr.foldl
    (fun acc b =>
      if listContains b.data raw then (acc.1 + countOcc b.data raw, some b.data)
      else acc)
    (0, none)

/-- Error outcomes of Block construction.  identErr wraps the ValueError
re-raised from to_pg_identifier; stationNoDigits models the ValueError of
int('') when the station identifier has no digit characters; indexCrash
models the uncaught IndexError when parts[2] does not exist. -/
inductive BlockErr
  | tooManyHashtags
  | tooManyBinops
  | identErr (e : PgIdErr)
  | stationNoDigits
  | indexCrash
  | inNotParenthesized
  | noHashtagWithOp
  deriving DecidableEq, Repr

/-- The attributes set by Block.__init__ / Block.unpack_logic. -/
structure BlockData where
  rawLogic : String
  masterAlias : String
  parentSite : String
  orderNr : Nat
  -- "alias" is a reserved command name in Lean, hence aliasName
  aliasName : String
  secondary : Bool
  site : Option String := none
  station : Option String := none
  stationId : Option Nat := none
  sourceAlias : Option String := none
  sourceView : Option String := none
  sensor : Option String := none
  operator : Option String := none
  valueStr : Option String := none
  deriving DecidableEq, Repr

/-- Python int(s) on a non-empty string of digit characters. -/
def digitsToNat (ds : List Char) : Nat :=
  ds.foldl (fun n c => 10 * n + (c.toNat - '0'.toNat)) 0

/-- Block.__init__ followed by Block.unpack_logic.  Any Python exception
(ValueError or IndexError) becomes an error value. -/
def mkBlock (masterAlias parentSite : String) (orderNr : Nat) (rawLogic : String) :
    Except BlockErr BlockData :=
  match toPgIdentifier masterAlias with
  | .error e => .error (.identErr e)
  | .ok ma =>
    match toPgIdentifier parentSite with
    | .error e => .error (.identErr e)
    | .ok ps =>
      let al := ma ++ "_" ++ toString orderNr
      let raw := rawLogic.data
      let nHashtags := countOcc "#".data raw
      if nHashtags > 1 then .error .tooManyHashtags
      else
        let scan := binopScan raw
        let nBinops := scan.1
        if nBinops > 1 then .error .tooManyBinops
        else if nHashtags = 0 ∧ nBinops = 0 then
          -- Case 1: no hashtag, no operator: secondary block, site from parent
          match toPgIdentifier rawLogic with
          | .error e => .error (.identErr e)
          | .ok sa =>
            .ok { rawLogic, masterAlias := ma, parentSite := ps, orderNr, aliasName := al,
                  secondary := true, site := some ps, sourceAlias := some sa,
                  sourceView := some (ps ++ "_" ++ sa) }
        else if nHashtags = 1 ∧ nBinops = 0 then
          -- Case 2: hashtag, no operator: secondary block with explicit site
          let parts := splitOnL "#".data raw
          match toPgIdentifier ⟨parts.getD 0 []⟩ with
          | .error e => .error (.identErr e)
          | .ok site =>
            match toPgIdentifier ⟨parts.getD 1 []⟩ with
            | .error e => .error (.identErr e)
            | .ok sa =>
              .ok { rawLogic, masterAlias := ma, parentSite := ps, orderNr, aliasName := al,
                    secondary := true, site := some site, sourceAlias := some sa,
                    sourceView := some (site ++ "_" ++ sa) }
        else if nHashtags = 1 ∧ nBinops = 1 then
          -- Case 3: hashtag and operator: primary block
          let binop := scan.2.getD []
          let parts0 := splitOnL "#".data raw
          let parts := [parts0.getD 0 []] ++ splitOnL binop (parts0.getD 1 [])
          match toPgIdentifier ⟨parts.getD 0 []⟩ with
          | .error e => .error (.identErr e)
          | .ok station =>
            let digits := station.data.filter Char.isDigit
            if digits = [] then .error .stationNoDigits
            else
              match toPgIdentifier ⟨parts.getD 1 []⟩ with
              | .error e => .error (.identErr e)
              | .ok sensor =>
                let op : String := ⟨pyStripL (pyLowerL binop)⟩
                if parts.length < 3 then .error .indexCrash
                else
                  let value : String := ⟨pyStripL (pyLowerL (parts.getD 2 []))⟩
                  -- Special case "in": the source raises only when the value
                  -- NEITHER starts with '(' NOR ends with ')' (an "and" where
                  -- its own error message demands both parentheses).
                  if op = "in" ∧
                      "(".data.isPrefixOf value.data = false ∧
                      ")".data.isSuffixOf value.data = false then
                    .error .inNotParenthesized
                  else
                    .ok { rawLogic, masterAlias := ma, parentSite := ps, orderNr,
                          aliasName := al, secondary := false, site := some ps,
                          station := some station,
                          stationId := some (digitsToNat digits),
                          sensor := some sensor, operator := some op,
                          valueStr := some value }
        else
          -- Case 4: operator without hashtag
          .error .noHashtagWithOp

/-! ## condition.Condition: tokenizer (the re.split on line 177) -/

def prevIsSpace : Option Char → Bool
  | some p => isPySpace p
  | none => false

/-- The re.split of condition.py line 177: split on parentheses and on
and/or/not surrounded by whitespace (not also at string start followed by
whitespace), keeping the captured delimiters in the result list.  prev is
the character immediately before the current position (lookbehind), acc
the current fragment reversed. -/
def splitRawAux : Option Char → List Char → List Char → List (List Char)
  | _, [], acc => [acc.reverse]
  | _, '(' :: rest, acc => acc.reverse :: ['('] :: splitRawAux (some '(') rest []
  | _, ')' :: rest, acc => acc.reverse :: [')'] :: splitRawAux (some ')') rest []
  | prev, 'a' :: 'n' :: 'd' :: c :: rest, acc =>
    if prevIsSpace prev && isPySpace c then
      acc.reverse :: ['a', 'n', 'd'] :: splitRawAux (some 'd') (c :: rest) []
    else splitRawAux (some 'a') ('n' :: 'd' :: c :: rest) ('a' :: acc)
  | prev, 'o' :: 'r' :: c :: rest, acc =>
    if prevIsSpace prev && isPySpace c then
      acc.reverse :: ['o', 'r'] :: splitRawAux (some 'r') (c :: rest) []
    else splitRawAux (some 'o') ('r' :: c :: rest) ('o' :: acc)
  | prev, 'n' :: 'o' :: 't' :: c :: rest, acc =>
    if (prev = none || prevIsSpace prev) && isPySpace c then
      acc.reverse :: ['n', 'o', 't'] :: splitRawAux (some 't') (c :: rest) []
    else splitRawAux (some 'n') ('o' :: 't' :: c :: rest) ('n' :: acc)
  | _, c :: rest, acc => splitRawAux (some c) rest (c :: acc)

/-- Lines 177-179: split, strip each element, drop empty elements. -/
def splitCondL (value : List Char) : List (List Char) :=
  ((splitRawAux none value []).map pyStripL).filter (· ≠ [])

/-- new_sp[-1][-3:] == ' in' (guarded by len > 3 in the source). -/
def endsInIn (last : List Char) : Bool :=
  last.length > 3 && [' ', 'i', 'n'].isSuffixOf last

/-- Lines 185-195: re-join fragments of a tuple following the "in"
operator.  The processed prefix is kept reversed (head = last element).
Elements are never empty here, so getLastD is only a totality device. -/
def mergeInAux : List (List Char) → List (List Char) → List (List Char)
  | revAcc, [] => revAcc.reverse
  | [], el :: rest => mergeInAux [el] rest
  | last :: others, el :: rest =>
    if endsInIn last then
      mergeInAux ((last ++ [' '] ++ el) :: others) rest
    else if listContains " in ".data last && last.getLastD ' ' ≠ ')' then
      mergeInAux ((last ++ el) :: others) rest
    else mergeInAux (el :: last :: others) rest

def mergeIn (els : List (List Char)) : List (List Char) := mergeInAux [] els

/-! ## condition.Condition: element identification with Block dedup -/

/-- An identified element of the condition (the (role, element) tuples of
make_blocks). -/
inductive Elem
  | openPar
  | closePar
  | andor (w : String)
  | notOp
  | block (b : BlockData)
  deriving DecidableEq, Repr

/-- Errors collected on a Condition (payloads mirror the distinguishing
parts of the corresponding message strings, so that the uniqueness filter
of add_error is preserved). -/
inductive CondErr
  | unbalancedParens (nOpen nClose : Nat)
  | couldNotAddBlock (i : Nat)
  | cannotBeFirst (display : String)
  | cannotBeLast (display : String)
  | badPair (left right : String)
  | elementsErr
  deriving DecidableEq, Repr

/-- Rendering of an element inside validate_order error messages
(blocks render via Block.__str__). -/
def displayElem : Elem → String
  | .openPar => "("
  | .closePar => ")"
  | .andor w => w
  | .notOp => "not"
  | .block b =>
    (if b.secondary then "Secondary " else "Primary ") ++ "Block " ++ b.aliasName
      ++ " at " ++ b.parentSite ++ ": " ++ b.rawLogic

/-- Condition.add_error: only unique errors are collected. -/
def addCondErr (errs : List CondErr) (e : CondErr) : List CondErr :=
  if e ∈ errs then errs else errs ++ [e]

/-- The block entries of an identified-element list, in order. -/
def blocksOf (l : List Elem) : List BlockData :=
  l.filterMap fun e => match e with | .block b => some b | _ => none

/-- The dedup scan of make_blocks lines 224-228: first already-identified
block tuple with the same raw_logic. -/
def findBlock (l : List Elem) (raw : String) : Option BlockData :=
  (blocksOf l).find? fun b => b.rawLogic == raw

/-- State of the identification loop: idfied, the order counter i, and
the errors collected so far. -/
structure IdState where
  idfied : List Elem
  i : Nat
  errs : List CondErr
  deriving Repr

/-- One iteration of the loop of make_blocks lines 204-235. -/
def identifyStep (ma site : String) (st : IdState) (el : List Char) : IdState :=
  if el = "(".data then { st with idfied := st.idfied ++ [.openPar] }
  else if el = ")".data then { st with idfied := st.idfied ++ [.closePar] }
  else if el = "and".data || el = "or".data then
    { st with idfied := st.idfied ++ [.andor ⟨el⟩] }
  else if el = "not".data then { st with idfied := st.idfied ++ [.notOp] }
  else
    match mkBlock ma site st.i ⟨el⟩ with
    | .ok bl =>
      match findBlock st.idfied bl.rawLogic with
      | some eb => { st with idfied := st.idfied ++ [.block eb] }
      | none => { st with idfied := st.idfied ++ [.block bl], i := st.i + 1 }
    | .error _ =>
      { st with errs := addCondErr st.errs (.couldNotAddBlock st.i) }

/-- The identification loop, starting from errors already collected
(the parenthesis-balance check precedes it in make_blocks). -/
def identify (ma site : String) (errs0 : List CondErr) (els : List (List Char)) : IdState :=
  els.foldl (identifyStep ma site) ⟨[], 0, errs0⟩

/-! ## condition.validate_order -/

def allowedFirstB : Elem → Bool
  | .openPar | .notOp | .block _ => true
  | _ => false

def allowedLastB : Elem → Bool
  | .closePar | .block _ => true
  | _ => false

/-- The allowed_pairs table of validate_order. -/
def allowedPairB : Elem → Elem → Bool
  | .openPar, .openPar | .openPar, .notOp | .openPar, .block _ => true
  | .closePar, .closePar | .closePar, .andor _ => true
  | .andor _, .openPar | .andor _, .notOp | .andor _, .block _ => true
  | .notOp, .openPar | .notOp, .block _ => true
  | .block _, .closePar | .block _, .andor _ => true
  | _, _ => false

/-- The enumerate loop of validate_order, collecting the violation
messages in order.  full is the whole tuples list (for tuples[i+1]),
lastI = len(tuples) - 1.  Note the elif: for a single-element list the
last-element check is never reached. -/
def voGo (full : List Elem) (lastI : Nat) : Nat → List Elem → List CondErr
  | _, [] => []
  | i, el :: rest =>
    (if i = 0 then
      (if allowedFirstB el then [] else [.cannotBeFirst (displayElem el)])
    else if i = lastI then
      (if allowedLastB el then [] else [.cannotBeLast (displayElem el)])
    else [])
    ++ (if i < lastI then
        (let nxt := full.getD (i + 1) .notOp
         if allowedPairB el nxt then [] else [.badPair (displayElem el) (displayElem nxt)])
      else [])
    ++ voGo full lastI (i + 1) rest

def validateOrderErrs (ts : List Elem) : List CondErr := voGo ts (ts.length - 1) 0 ts

/-- The return value errors_in_els of validate_order. -/
def validateOrder (ts : List Elem) : Bool := validateOrderErrs ts ≠ []

/-! ## condition.Condition: assembly -/

/-- Lines 319-322: unique blocks in order of appearance (Python not-in
uses Block.__eq__, i.e. full structural equality). -/
def uniqueBlocks (l : List Elem) : List BlockData :=
  l.foldl
    (fun acc e =>
      match e with
      | .block b => if b ∈ acc then acc else acc ++ [b]
      | _ => acc)
    []

/-- Stable insertion for sorted(blocks, key=lambda x: x.alias). -/
def insertByAlias (b : BlockData) : List BlockData → List BlockData
  | [] => [b]
  | x :: xs =>
    if b.aliasName ≤ x.aliasName then b :: x :: xs else x :: insertByAlias b xs

def sortByAlias : List BlockData → List BlockData
  | [] => []
  | x :: xs => insertByAlias x (sortByAlias xs)

/-- Lines 329-338: the piece contributed by each identified element to
alias_condition. -/
def aliasPart : Elem → String
  | .andor w => " " ++ w ++ " "
  | .notOp => "not "
  | .openPar => "("
  | .closePar => ")"
  | .block b => b.aliasName

/-- The same reconstruction with each block alias substituted back by the
block's original (raw) leaf text. -/
def rawPart : Elem → String
  | .andor w => " " ++ w ++ " "
  | .notOp => "not "
  | .openPar => "("
  | .closePar => ")"
  | .block b => b.rawLogic

/-- Unique station ids of the primary blocks (list_stations). -/
def listStations (blocks : List BlockData) : List Nat :=
  blocks.foldl
    (fun acc b =>
      if b.secondary then acc
      else
        match b.stationId with
        | some sid => if sid ∈ acc then acc else acc ++ [sid]
        | none => acc)
    []

/-- A Condition after __init__ (make_blocks and list_stations included). -/
structure Condition where
  site : String
  masterAlias : String
  idString : String
  condition : String
  conditionElements : List Elem
  blocks : List BlockData
  aliasCondition : String
  secondary : Option Bool
  stationIds : List Nat
  errors : List CondErr
  timeFrom : Int
  timeUntil : Int
  deriving DecidableEq, Repr

/-- Condition.__init__: site and master_alias must normalize (an
exception from to_pg_identifier propagates out of the constructor);
the condition string is stripped, lowercased and umlaut-eliminated;
make_blocks runs as on lines 148-348. -/
def mkCondition (site masterAlias rawCondition : String) (timeFrom timeUntil : Int) :
    Except PgIdErr Condition :=
  match toPgIdentifier site with
  | .error e => .error e
  | .ok s =>
    match toPgIdentifier masterAlias with
    | .error e => .error e
    | .ok ma =>
      let idString := s ++ "_" ++ ma
      let cond : String := ⟨eliminateUmlautsL (pyLowerL (pyStripL rawCondition.data))⟩
      -- make_blocks
      let nOpen := countOcc "(".data cond.data
      let nClose := countOcc ")".data cond.data
      let errs0 : List CondErr :=
        if nOpen ≠ nClose then addCondErr [] (.unbalancedParens nOpen nClose) else []
      let value := normalizeWsL cond.data
      let merged := mergeIn (splitCondL value)
      let idst := identify ma s errs0 merged
      let toks := idst.idfied
      let vErrs := validateOrderErrs toks
      let errs1 := vErrs.foldl addCondErr idst.errs
      if vErrs ≠ [] then
        -- has_errors: attributes are left at their initial values
        .ok { site := s, masterAlias := ma, idString, condition := cond,
              conditionElements := [], blocks := [], aliasCondition := "",
              secondary := none, stationIds := [],
              errors := addCondErr errs1 .elementsErr, timeFrom, timeUntil }
      else
        let blocks := sortByAlias (uniqueBlocks toks)
        .ok { site := s, masterAlias := ma, idString, condition := cond,
              conditionElements := toks, blocks,
              aliasCondition := String.join (toks.map aliasPart),
              secondary := some (blocks.any (·.secondary)),
              stationIds := listStations blocks,
              errors := errs1, timeFrom, timeUntil }

/-- alias_condition with each alias substituted back by the original leaf
text of its Block. -/
def substBack (c : Condition) : String :=
  String.join (c.conditionElements.map rawPart)

/-- All whitespace removed (the comparison modulo whitespace
normalization used for the round-trip property). -/
def despace (s : String) : String := ⟨s.data.filter fun c => !isPySpace c⟩

/-! ## condition.Condition: result summary (set_summary_attrs,
fetch_results_from_db) -/

/-- One row of the result DataFrame fetched from the condition's temp
table: slice start, slice end and the master value (none models SQL
NULL / unknown).  vdiff is the computed column vuntil - vfrom. -/
structure MainRow where
  vfrom : Int
  vuntil : Int
  master : Option Bool
  deriving DecidableEq, Repr

def vdiff (r : MainRow) : Int := r.vuntil - r.vfrom

/-- The duration/summary attributes of a Condition.  Option Int durations
model pandas NaT (the value of min/max over an empty frame and of
arithmetic with it). -/
structure CondResults where
  timeFrom : Int
  timeUntil : Int
  tottime : Option Int
  tottimeValid : Int
  tottimeNotvalid : Int
  tottimeNodata : Option Int
  dataFrom : Option Int
  dataUntil : Option Int
  nRows : Nat
  mainDf : Option (List MainRow)
  deriving DecidableEq, Repr

/-- The initial values set in Condition.__init__ lines 115-121. -/
def initCondResults (timeFrom timeUntil : Int) : CondResults :=
  { timeFrom, timeUntil, tottime := some (timeUntil - timeFrom),
    tottimeValid := 0, tottimeNotvalid := 0,
    tottimeNodata := some (timeUntil - timeFrom),
    dataFrom := none, dataUntil := none, nRows := 0, mainDf := none }

def sumDurations (rows : List MainRow) : Int :=
  rows.foldl (fun a r => a + vdiff r) 0

/-- Condition.set_summary_attrs: nodata is obtained by subtraction from
tottime, not by summing the unknown slices. -/
def setSummaryAttrs (c : CondResults) : CondResults :=
  match c.mainDf with
  | none => c
  | some df =>
    let v := sumDurations (df.filter fun r => r.master == some true)
    let nv := sumDurations (df.filter fun r => r.master == some false)
    { c with
      nRows := df.length
      tottimeValid := v
      tottimeNotvalid := nv
      tottimeNodata := c.tottime.map (· - v - nv) }

/-- pandas Series.min over a column (none on an empty frame, i.e. NaT). -/
def pandasMin : List Int → Option Int
  | [] => none
  | x :: xs => some (xs.foldl min x)

def pandasMax : List Int → Option Int
  | [] => none
  | x :: xs => some (xs.foldl max x)

/-- Condition.fetch_results_from_db with a successful query returning
rows: stores the DataFrame, sets data_from/data_until to the min/max
witnessed timestamps, REPLACES tottime by data_until - data_from, then
runs set_summary_attrs. -/
def fetchResultsFromDb (c : CondResults) (rows : List MainRow) : CondResults :=
  let dFrom := pandasMin (rows.map (·.vfrom))
  let dUntil := pandasMax (rows.map (·.vuntil))
  let c1 :=
    { c with
      mainDf := some rows
      dataFrom := dFrom
      dataUntil := dUntil
      tottime :=
        match dFrom, dUntil with
        | some a, some b => some (b - a)
        | _, _ => none }
  setSummaryAttrs c1

/-! ## Three-valued evaluation of the master expression

create_db_temptable emits "({alias_condition}) AS master" (one block:
"{alias} AS master"), so the per-slice master value is computed by
PostgreSQL, not by Python code in this repository.  Modelled from the
spec: the alias expression is evaluated per partition slice under SQL
boolean three-valued semantics (true/false/NULL), NULL standing for
unknown. -/

/-- Modelled from the spec: SQL AND over true/false/NULL. -/
def and3 : Option Bool → Option Bool → Option Bool
  | some false, _ => some false
  | _, some false => some false
  | some true, some true => some true
  | _, _ => none

/-- Modelled from the spec: SQL OR over true/false/NULL. -/
def or3 : Option Bool → Option Bool → Option Bool
  | some true, _ => some true
  | _, some true => some true
  | some false, some false => some false
  | _, _ => none

/-- Modelled from the spec: SQL NOT over true/false/NULL. -/
def not3 : Option Bool → Option Bool
  | some b => some !b
  | none => none

/-- Boolean alias expressions (leaves are block aliases, connectives are
exactly the and/or/not of the tokenizer). -/
inductive BExpr
  | leaf (a : String)
  | andE (l r : BExpr)
  | orE (l r : BExpr)
  | notE (e : BExpr)
  deriving DecidableEq, Repr

/-- Modelled from the spec: evaluation of an alias expression over a
slice's per-block values. -/
def evalB (v : String → Option Bool) : BExpr → Option Bool
  | .leaf a => v a
  | .andE l r => and3 (evalB v l) (evalB v r)
  | .orE l r => or3 (evalB v l) (evalB v r)
  | .notE e => not3 (evalB v e)

/-! ## cond_collection.CondCollection -/

structure CondCollection where
  timeFrom : Int
  timeUntil : Int
  conditions : List Condition
  stationIds : List Nat
  idStrings : List String
  errors : List String
  deriving DecidableEq, Repr

def mkCondCollection (timeFrom timeUntil : Int) : CondCollection :=
  { timeFrom, timeUntil, conditions := [], stationIds := [], idStrings := [],
    errors := [] }

/-- Modelled from the spec: CondCollection.add_error is invoked all over
cond_collection.py but its definition is absent from the source tree
(only its callers are present); per the error-handling design of the
spec it records the message in the collection's error store and does not
raise. -/
def CondCollection.addError (cc : CondCollection) (msg : String) : CondCollection :=
  { cc with errors := cc.errors ++ [msg] }

/-- CondCollection.add_station (no station-availability list fetched, as
when no database connection is present). -/
def addStation (cc : CondCollection) (sid : Nat) : CondCollection :=
  if sid ∈ cc.stationIds then cc
  else { cc with stationIds := cc.stationIds ++ [sid] }

/-- The ValueError message raised for a duplicate site-master_alias id. -/
def dupMsg (idString : String) : String :=
  "Site-master_alias combo " ++ idString ++ " is already reserved, cannot add it twice"

/-- str(e) for the ValueError propagating out of Condition construction
(message text abbreviated per error kind; the claims only distinguish
error kinds, not message wording). -/
def pgIdErrMsg : PgIdErr → String
  | .reservedId => "reserved identifier"
  | .leadingDigit => "string starts with digit"
  | .tooLong => "too long"
  | .invalidChar => "invalid character"
  | .emptyIndexCrash => "string index out of range"

/-- CondCollection.add_condition: build the candidate Condition; raise
(and catch, record) on a duplicate id_string; otherwise append the
condition, its id and its station ids. -/
def addCondition (cc : CondCollection) (site masterAlias rawCondition : String) :
    CondCollection :=
  match mkCondition site masterAlias rawCondition cc.timeFrom cc.timeUntil with
  | .error e => cc.addError (pgIdErrMsg e)
  | .ok cand =>
    if cand.idString ∈ cc.idStrings then cc.addError (dupMsg cand.idString)
    else
      let cc1 :=
        { cc with
          conditions := cc.conditions ++ [cand]
          idStrings := cc.idStrings ++ [cand.idString] }
      cand.stationIds.foldl addStation cc1

/-! ## Helper definitions for the stated properties -/

def despaceL (cs : List Char) : List Char := cs.filter fun c => !isPySpace c

/-- Structural restatement of the validate_order loop used to
characterize it: isFirst marks position 0; a final singleton that is not
first receives the last-element check; the elif of the source means a
first element never receives it. -/
def voSpec : Bool → List Elem → List CondErr
  | _, [] => []
  | isFirst, [el] =>
    if isFirst then
      (if allowedFirstB el then [] else [.cannotBeFirst (displayElem el)])
    else
      (if allowedLastB el then [] else [.cannotBeLast (displayElem el)])
  | isFirst, el :: next :: rest =>
    (if isFirst then
      (if allowedFirstB el then [] else [.cannotBeFirst (displayElem el)])
    else [])
    ++ (if allowedPairB el next then [] else
        [.badPair (displayElem el) (displayElem next)])
    ++ voSpec false (next :: rest)

/-- Adjacent-pair check of the grammar table over a whole sequence. -/
def pairsOkB : List Elem → Bool
  | [] => true
  | [_] => true
  | a :: b :: rest => allowedPairB a b && pairsOkB (b :: rest)

/-- First occurrence of each distinct raw_logic, in order of appearance. -/
def firstOccsAux (seen : List String) : List BlockData → List BlockData
  | [] => []
  | b :: rest =>
    if b.rawLogic ∈ seen then firstOccsAux seen rest
    else b :: firstOccsAux (seen ++ [b.rawLogic]) rest

def firstOccs (bs : List BlockData) : List BlockData := firstOccsAux [] bs

/-! # Theorems for the claims -/

/-- C5: the identifier normalizer's length check fires only for
normalized results longer than 63 characters, although the function's
own docstring and error message state a 40-character maximum: the
41-character identifier is accepted (the claim requires rejection),
while a 64-character one is rejected. -/
theorem c5_length_check_is_63_not_40 :
    toPgIdentifier ⟨List.replicate 41 'a'⟩ = .ok ⟨List.replicate 41 'a'⟩ ∧
    (List.replicate 41 'a').length > 40 ∧
    toPgIdentifier ⟨List.replicate 63 'a'⟩ = .ok ⟨List.replicate 63 'a'⟩ ∧
    toPgIdentifier ⟨List.replicate 64 'a'⟩ = .error .tooLong := by decide

/-- C6 counterexample: an empty (or whitespace-only) input does not get a
distinct validation error; the normalizer reaches the leading-digit check
x[0].isdigit() and crashes with an uncaught IndexError (modelled by the
dedicated emptyIndexCrash constructor, distinct from every deliberate
ValueError branch). -/
theorem c6_counterexample :
    toPgIdentifier "" = .error .emptyIndexCrash ∧
    toPgIdentifier " " = .error .emptyIndexCrash := by decide

/-- C6 amended: every input whose normalized result is empty makes the
normalizer crash with the uncaught IndexError at the first-character
check; there is no distinct empty-input validation error in the source. -/
theorem c6_amended (s : String) (h : pgNormalizeL s = []) :
    toPgIdentifier s = .error .emptyIndexCrash := by
  unfold pgNormalizeL at h
  unfold toPgIdentifier
  rw [h]
  decide

theorem c6_amended_witness :
    pgNormalizeL "  " = [] ∧ toPgIdentifier "  " = .error .emptyIndexCrash :=
  ⟨by decide, c6_amended "  " (by decide)⟩

/-- C4: the in-operator check of Block.unpack_logic raises only when the
value NEITHER starts with a parenthesis NOR ends with one (an "and" of
the two failure conditions where the error message, the docstring and the
comment in condition.py line 182 require an enclosed tuple).  The claim's
example without any parentheses is indeed rejected, but a half-
parenthesized tuple such as "(1,2,3" or "1,2,3)" is accepted. -/
theorem c4_in_check_requires_both_failures :
    mkBlock "m" "s" 0 "s1#x in 1,2,3" = .error .inNotParenthesized ∧
    (mkBlock "m" "s" 0 "s1#x in (1,2,3").toOption.map (·.valueStr)
      = some (some "(1,2,3") ∧
    (mkBlock "m" "s" 0 "s1#x in 1,2,3)").toOption.map (·.valueStr)
      = some (some "1,2,3)") := by decide

/-- C2: the three-valued semantics used for the per-slice master value
(the generated SQL evaluates "(alias_condition) AS master", one block:
"alias AS master") satisfies exactly the claimed truth table, and the
expression evaluator combines sub-expressions through those connectives
and reads a leaf's value from the slice's per-block values. -/
theorem c2_three_valued_truth_table :
    (and3 (some true) (some true) = some true) ∧
    (∀ x, and3 (some false) x = some false) ∧
    (and3 (some true) none = none) ∧
    (and3 none none = none) ∧
    (∀ x, or3 (some true) x = some true) ∧
    (or3 (some false) (some false) = some false) ∧
    (or3 (some false) none = none) ∧
    (or3 none none = none) ∧
    (not3 (some true) = some false) ∧
    (not3 (some false) = some true) ∧
    (not3 none = none) ∧
    (∀ v l r, evalB v (.andE l r) = and3 (evalB v l) (evalB v r)) ∧
    (∀ v l r, evalB v (.orE l r) = or3 (evalB v l) (evalB v r)) ∧
    (∀ v e, evalB v (.notE e) = not3 (evalB v e)) ∧
    (∀ v a, evalB v (.leaf a) = v a) := by
  refine ⟨rfl, ?_, rfl, rfl, ?_, rfl, rfl, rfl, rfl, rfl, rfl,
    fun v l r => rfl, fun v l r => rfl, fun v e => rfl, fun v a => rfl⟩ <;>
    decide

/-- C1 counterexample: analysis window 0..100, one fetched slice 0..10
with master true.  After fetch_results_from_db the summary durations sum
to 10, the tottime that was RESET to data_until - data_from, and not to
the window length 100; the sum of slice durations is likewise 10. -/
theorem c1_counterexample :
    (fetchResultsFromDb (initCondResults 0 100) [⟨0, 10, some true⟩]).timeUntil
        - (fetchResultsFromDb (initCondResults 0 100) [⟨0, 10, some true⟩]).timeFrom
        = 100 ∧
    (fetchResultsFromDb (initCondResults 0 100) [⟨0, 10, some true⟩]).tottimeValid = 10 ∧
    (fetchResultsFromDb (initCondResults 0 100) [⟨0, 10, some true⟩]).tottimeNotvalid = 0 ∧
    (fetchResultsFromDb (initCondResults 0 100) [⟨0, 10, some true⟩]).tottimeNodata = some 0 ∧
    ((10 : Int) + 0 + 0 ≠ 100) ∧
    sumDurations [⟨0, 10, some true⟩] = 10 ∧ ((10 : Int) ≠ 100) := by decide

/-- C1 amended: after a fetch that returns at least one row, the
conservation identity holds against tottime, which fetch_results_from_db
has RESET to data_until - data_from (the witnessed data span), not
against the analysis window time_until - time_from; the two coincide
only when the data spans the whole window. -/
theorem c1_amended (c : CondResults) (rows : List MainRow) (h : rows ≠ []) :
    ∃ dF dU nd,
      (fetchResultsFromDb c rows).dataFrom = some dF ∧
      (fetchResultsFromDb c rows).dataUntil = some dU ∧
      (fetchResultsFromDb c rows).tottime = some (dU - dF) ∧
      (fetchResultsFromDb c rows).tottimeNodata = some nd ∧
      (fetchResultsFromDb c rows).tottimeValid
        + (fetchResultsFromDb c rows).tottimeNotvalid + nd = dU - dF := by
  match rows with
  | r :: rs =>
    simp only [fetchResultsFromDb, pandasMin, pandasMax, List.map_cons, setSummaryAttrs]
    exact ⟨_, _, _, rfl, rfl, rfl, rfl, by ring⟩

theorem c1_amended_witness :
    ([⟨0, 10, some true⟩] : List MainRow) ≠ [] ∧
    (∃ dF dU nd,
      (fetchResultsFromDb (initCondResults 0 100) [⟨0, 10, some true⟩]).dataFrom = some dF ∧
      (fetchResultsFromDb (initCondResults 0 100) [⟨0, 10, some true⟩]).dataUntil = some dU ∧
      (fetchResultsFromDb (initCondResults 0 100) [⟨0, 10, some true⟩]).tottime = some (dU - dF) ∧
      (fetchResultsFromDb (initCondResults 0 100) [⟨0, 10, some true⟩]).tottimeNodata = some nd ∧
      (fetchResultsFromDb (initCondResults 0 100) [⟨0, 10, some true⟩]).tottimeValid
        + (fetchResultsFromDb (initCondResults 0 100) [⟨0, 10, some true⟩]).tottimeNotvalid
        + nd = dU - dF) :=
  ⟨by decide, c1_amended (initCondResults 0 100) [⟨0, 10, some true⟩] (by decide)⟩

/-- Shape of a successfully constructed Block: it stores the raw leaf
text and the requested order number, and a primary block derives its
numeric station id from exactly the digit characters of the normalized
station identifier (construction having failed if there were none). -/
theorem mkBlock_ok_shape (ma ps : String) (i : Nat) (raw : String) (bl : BlockData)
    (h : mkBlock ma ps i raw = .ok bl) :
    bl.rawLogic = raw ∧ bl.orderNr = i ∧
    (bl.secondary = false →
      ∃ st, bl.station = some st ∧ st.data.filter Char.isDigit ≠ [] ∧
        bl.stationId = some (digitsToNat (st.data.filter Char.isDigit))) := by
  simp only [mkBlock] at h
  split at h
  · exact absurd h (by simp)
  split at h
  · exact absurd h (by simp)
  split at h
  · exact absurd h (by simp)
  split at h
  · exact absurd h (by simp)
  split at h
  · -- case 1: secondary
    split at h
    · exact absurd h (by simp)
    · injection h with h2
      subst h2
      exact ⟨rfl, rfl, fun hsec => by simp at hsec⟩
  split at h
  · -- case 2: secondary
    split at h
    · exact absurd h (by simp)
    split at h
    · exact absurd h (by simp)
    · injection h with h2
      subst h2
      exact ⟨rfl, rfl, fun hsec => by simp at hsec⟩
  split at h
  · -- case 3: primary
    split at h
    · exact absurd h (by simp)
    split at h
    · exact absurd h (by simp)
    split at h
    · exact absurd h (by simp)
    split at h
    · exact absurd h (by simp)
    split at h
    · exact absurd h (by simp)
    · injection h with h2
      subst h2
      refine ⟨rfl, rfl, fun _ => ⟨_, rfl, ?_, rfl⟩⟩
      assumption
  · exact absurd h (by simp)

/-- C10: a primary Block's numeric station id is the integer read off the
digit characters of the normalized station identifier, concatenated in
order; and for a primary-shaped leaf (one hashtag, one surrounded binary
operator) whose normalized station identifier contains no digit
character, Block construction fails with an error instead of producing a
station id. -/
theorem c10_station_id_from_digit_chars :
    (∀ ma ps i raw bl, mkBlock ma ps i raw = .ok bl → bl.secondary = false →
      ∃ st, bl.station = some st ∧ st.data.filter Char.isDigit ≠ [] ∧
        bl.stationId = some (digitsToNat (st.data.filter Char.isDigit))) ∧
    (∀ ma ps i raw st,
      countOcc "#".data raw.data = 1 →
      (binopScan raw.data).1 = 1 →
      toPgIdentifier ⟨(splitOnL "#".data raw.data).getD 0 []⟩ = .ok st →
      st.data.filter Char.isDigit = [] →
      ∀ bl, mkBlock ma ps i raw ≠ .ok bl) := by
  constructor
  · exact fun ma ps i raw bl h => (mkBlock_ok_shape ma ps i raw bl h).2.2
  · intro ma ps i raw st hhash hscan hst hdig bl h
    simp only [mkBlock, hhash, hscan] at h
    norm_num at h
    split at h
    · exact absurd h (by simp)
    split at h
    · exact absurd h (by simp)
    · simp only [List.getD_eq_getElem?_getD] at hst
      simp only [hst] at h
      rw [List.filter_eq_nil_iff] at hdig
      rw [if_pos (by simpa using hdig)] at h
      exact absurd h (by simp)

theorem c10_witness :
    (∃ bl st, mkBlock "d2" "s" 3 "s1122#kitka3_luku >= 0.30" = .ok bl ∧
      bl.station = some st ∧ st.data.filter Char.isDigit ≠ [] ∧
      bl.stationId = some (digitsToNat (st.data.filter Char.isDigit))) ∧
    (∀ bl, mkBlock "m" "s" 0 "ab#x > 1" ≠ .ok bl) := by
  constructor
  · obtain ⟨st, h1, h2, h3⟩ :=
      c10_station_id_from_digit_chars.1 "d2" "s" 3 "s1122#kitka3_luku >= 0.30" _
        rfl (by decide)
    exact ⟨_, st, rfl, h1, h2, h3⟩
  · exact fun bl =>
      c10_station_id_from_digit_chars.2 "m" "s" 0 "ab#x > 1" "ab"
        (by decide) (by decide) (by decide) (by decide) bl

theorem addStation_fixed (cc : CondCollection) (sid : Nat) :
    (addStation cc sid).conditions = cc.conditions ∧
    (addStation cc sid).idStrings = cc.idStrings ∧
    (addStation cc sid).errors = cc.errors := by
  unfold addStation; split <;> exact ⟨rfl, rfl, rfl⟩

theorem foldl_addStation_fixed (l : List Nat) (cc : CondCollection) :
    (l.foldl addStation cc).conditions = cc.conditions ∧
    (l.foldl addStation cc).idStrings = cc.idStrings ∧
    (l.foldl addStation cc).errors = cc.errors := by
  induction l generalizing cc with
  | nil => exact ⟨rfl, rfl, rfl⟩
  | cons x xs ih =>
    obtain ⟨h1, h2, h3⟩ := ih (addStation cc x)
    obtain ⟨g1, g2, g3⟩ := addStation_fixed cc x
    exact ⟨h1.trans g1, h2.trans g2, h3.trans g3⟩

/-- C9: adding a (site, master_alias, raw_condition) triple whose
normalized site_masteralias id is already present leaves the conditions
list, the id set and the station ids unchanged, records the duplicate
error on the collection (via the modelled add_error), and the collection
still accepts a subsequent non-duplicate triple. -/
theorem c9_duplicate_condition_rejected (cc : CondCollection)
    (site ma raw : String) (cand : Condition)
    (hc : mkCondition site ma raw cc.timeFrom cc.timeUntil = .ok cand)
    (hdup : cand.idString ∈ cc.idStrings) :
    (addCondition cc site ma raw).conditions = cc.conditions ∧
    (addCondition cc site ma raw).idStrings = cc.idStrings ∧
    (addCondition cc site ma raw).stationIds = cc.stationIds ∧
    (addCondition cc site ma raw).errors = cc.errors ++ [dupMsg cand.idString] ∧
    (∀ site2 ma2 raw2 cand2,
      mkCondition site2 ma2 raw2 cc.timeFrom cc.timeUntil = .ok cand2 →
      cand2.idString ∉ cc.idStrings →
      (addCondition (addCondition cc site ma raw) site2 ma2 raw2).conditions
        = cc.conditions ++ [cand2]) := by
  have h1 : addCondition cc site ma raw = cc.addError (dupMsg cand.idString) := by
    unfold addCondition
    simp only [hc]
    rw [if_pos hdup]
  refine ⟨by rw [h1]; rfl, by rw [h1]; rfl, by rw [h1]; rfl, by rw [h1]; rfl, ?_⟩
  intro site2 ma2 raw2 cand2 hc2 hnd
  rw [h1]
  unfold addCondition
  simp only [show (cc.addError (dupMsg cand.idString)).timeFrom = cc.timeFrom from rfl,
    show (cc.addError (dupMsg cand.idString)).timeUntil = cc.timeUntil from rfl, hc2]
  rw [if_neg (show cand2.idString ∉ (cc.addError (dupMsg cand.idString)).idStrings from hnd)]
  exact ((foldl_addStation_fixed _ _).1.trans rfl)

theorem c9_witness :
    ∃ cand,
      mkCondition "sa" "c4" "a1#x > 1"
          (addCondition (mkCondCollection 0 100) "sa" "c4" "a1#x > 1").timeFrom
          (addCondition (mkCondCollection 0 100) "sa" "c4" "a1#x > 1").timeUntil
        = .ok cand ∧
      cand.idString ∈ (addCondition (mkCondCollection 0 100) "sa" "c4" "a1#x > 1").idStrings ∧
      (addCondition (addCondition (mkCondCollection 0 100) "sa" "c4" "a1#x > 1")
          "sa" "c4" "a1#x > 1").conditions
        = (addCondition (mkCondCollection 0 100) "sa" "c4" "a1#x > 1").conditions ∧
      (addCondition (addCondition (mkCondCollection 0 100) "sa" "c4" "a1#x > 1")
          "sa" "c4" "a1#x > 1").errors
        = (addCondition (mkCondCollection 0 100) "sa" "c4" "a1#x > 1").errors
            ++ [dupMsg cand.idString] := by
  refine ⟨_, rfl, by decide, ?_, ?_⟩
  · exact (c9_duplicate_condition_rejected _ "sa" "c4" "a1#x > 1" _ rfl (by decide)).1
  · exact (c9_duplicate_condition_rejected _ "sa" "c4" "a1#x > 1" _ rfl (by decide)).2.2.2.1

theorem getD_shift {α : Type} (pre l : List α) (k : Nat) (d : α) :
    (pre ++ l).getD (pre.length + k) d = l.getD k d := by
  induction pre with
  | nil => simp
  | cons a as ih => simpa [Nat.succ_add] using ih

/-- One unfolding step of the validate_order loop. -/
theorem voGo_cons (full : List Elem) (lastI i : Nat) (el : Elem) (rest : List Elem) :
    voGo full lastI i (el :: rest) =
      ((if i = 0 then
          (if allowedFirstB el then [] else [.cannotBeFirst (displayElem el)])
        else if i = lastI then
          (if allowedLastB el then [] else [.cannotBeLast (displayElem el)])
        else [])
        ++ (if i < lastI then
            (if allowedPairB el (full.getD (i + 1) .notOp) then []
             else [.badPair (displayElem el)
                    (displayElem (full.getD (i + 1) .notOp))])
          else []))
        ++ voGo full lastI (i + 1) rest := rfl

/-- The enumerate loop of validate_order, re-expressed structurally: at
offset pre.length into the full list, the remaining iterations produce
exactly the voSpec errors of the remaining elements. -/
theorem voGo_bridge (rest pre : List Elem) :
    voGo (pre ++ rest) ((pre ++ rest).length - 1) pre.length rest
      = voSpec pre.isEmpty rest := by
  induction rest generalizing pre with
  | nil => cases pre <;> rfl
  | cons el rest' ih =>
    have hfull : pre ++ el :: rest' = (pre ++ [el]) ++ rest' := by simp
    rw [voGo_cons]
    have htail : voGo (pre ++ el :: rest') ((pre ++ el :: rest').length - 1)
        (pre.length + 1) rest' = voSpec false rest' := by
      have h2 := ih (pre ++ [el])
      rw [← hfull] at h2
      rw [show (pre ++ [el]).isEmpty = false from by cases pre <;> rfl] at h2
      simpa using h2
    rw [htail]
    have hg : (pre ++ el :: rest').getD (pre.length + 1) Elem.notOp
        = rest'.getD 0 Elem.notOp := by
      simpa using getD_shift pre (el :: rest') 1 Elem.notOp
    cases rest' with
    | nil =>
      cases pre with
      | nil => simp [voSpec]
      | cons p ps =>
        rw [if_neg (show ¬((p :: ps).length = 0) by simp)]
        rw [if_pos (show (p :: ps).length = ((p :: ps) ++ el :: []).length - 1 by simp)]
        rw [if_neg (show ¬((p :: ps).length < ((p :: ps) ++ el :: []).length - 1) by simp)]
        simp [voSpec]
    | cons next r =>
      cases pre with
      | nil =>
        rw [if_pos (show ([] : List Elem).length = 0 from rfl)]
        rw [if_pos (show ([] : List Elem).length
            < (([] : List Elem) ++ el :: next :: r).length - 1 by simp)]
        rw [show (([] : List Elem) ++ el :: next :: r).getD (([] : List Elem).length + 1)
            Elem.notOp = next from hg]
        simp [voSpec, List.append_assoc]
      | cons p ps =>
        rw [if_neg (show ¬((p :: ps).length = 0) by simp)]
        rw [if_neg (show ¬((p :: ps).length = ((p :: ps) ++ el :: next :: r).length - 1)
            by simp)]
        rw [if_pos (show (p :: ps).length < ((p :: ps) ++ el :: next :: r).length - 1
            by simp)]
        rw [show ((p :: ps) ++ el :: next :: r).getD ((p :: ps).length + 1) Elem.notOp
            = next from by simpa using hg]
        simp [voSpec, List.append_assoc]

theorem voSpec_false_nil_iff (l : List Elem) (hl : l ≠ []) :
    voSpec false l = [] ↔
      (pairsOkB l = true ∧ allowedLastB (l.getLast?.getD .notOp) = true) := by
  induction l with
  | nil => exact absurd rfl hl
  | cons a l ih =>
    cases l with
    | nil =>
      simp only [voSpec]
      split <;> simp_all [pairsOkB]
    | cons b r =>
      have hgl : (a :: b :: r).getLast?.getD Elem.notOp
          = (b :: r).getLast?.getD Elem.notOp := by
        rw [List.getLast?_cons_cons]
      cases hab : allowedPairB a b <;>
        simp [voSpec, pairsOkB, hab, hgl, ih (by simp)]

theorem ite_nil_iff {c : Bool} {x : CondErr} :
    (if c = true then ([] : List CondErr) else [x]) = [] ↔ c = true := by
  cases c <;> simp

/-- C7 counterexample: for the single-token sequence consisting of a
"not" token, grammar validation succeeds (no error is produced) even
though the last token's type is not among the allowed last types
{close_paren, leaf}: the elif of the loop skips the last-element check
whenever the last element is also the first.  This falsifies the claimed
if-and-only-if characterization. -/
theorem c7_counterexample :
    validateOrderErrs [Elem.notOp] = [] ∧
    validateOrder [Elem.notOp] = false ∧
    allowedLastB Elem.notOp = false := by decide

/-- C7 amended: validation succeeds iff the sequence is empty, or its
first token type is allowed as first, every adjacent pair is in the
allowed-pairs table, and - only when the sequence has at least two
tokens - the last token type is allowed as last (for a single token the
elif of the loop skips the last-element check).  A sequence starting
with an and_or token is always rejected. -/
theorem c7_amended :
    (∀ ts : List Elem,
      validateOrderErrs ts = [] ↔
        (ts = [] ∨
          (allowedFirstB (ts.headD .notOp) = true ∧ pairsOkB ts = true ∧
            (2 ≤ ts.length → allowedLastB (ts.getLast?.getD .notOp) = true)))) ∧
    (∀ w rest, validateOrderErrs (.andor w :: rest) ≠ []) := by
  have hbase : ∀ ts : List Elem, validateOrderErrs ts = voSpec true ts := by
    intro ts
    have := voGo_bridge ts []
    simpa [validateOrderErrs] using this
  constructor
  · intro ts
    rw [hbase]
    cases ts with
    | nil => simp [voSpec]
    | cons a l =>
      cases l with
      | nil =>
        cases hfa : allowedFirstB a <;> simp [voSpec, pairsOkB, hfa]
      | cons b r =>
        have hne : (b :: r) ≠ ([] : List Elem) := by simp
        have h2le : 2 ≤ (a :: b :: r).length := by simp
        cases hfa : allowedFirstB a <;> cases hab : allowedPairB a b <;>
          simp [voSpec, pairsOkB, hfa, hab, voSpec_false_nil_iff _ hne,
            List.getLast?_cons_cons, h2le]
  · intro w rest
    rw [hbase]
    cases rest <;> simp [voSpec, allowedFirstB]

theorem c7_amended_witness :
    validateOrderErrs [Elem.openPar, Elem.notOp] ≠ [] ∧
    validateOrderErrs [Elem.andor "and", Elem.openPar] ≠ [] :=
  ⟨fun h => by
      rcases (c7_amended.1 [Elem.openPar, Elem.notOp]).mp h with h | ⟨_, _, h3⟩
      · exact absurd h (by decide)
      · exact absurd (h3 (by decide)) (by decide),
    c7_amended.2 "and" [Elem.openPar]⟩

theorem blocksOf_append_block (l : List Elem) (b : BlockData) :
    blocksOf (l ++ [.block b]) = blocksOf l ++ [b] := by
  simp [blocksOf, List.filterMap_append]

theorem blocksOf_append_nonblock (l : List Elem) (e : Elem)
    (he : ∀ b, e ≠ .block b) :
    blocksOf (l ++ [e]) = blocksOf l := by
  cases e with
  | block b => exact absurd rfl (he b)
  | _ => simp [blocksOf, List.filterMap_append]

theorem findBlock_none (l : List Elem) (raw : String)
    (h : findBlock l raw = none) :
    ∀ b ∈ blocksOf l, b.rawLogic ≠ raw := by
  intro b hb heq
  have := List.find?_eq_none.mp h b hb
  simp [heq] at this

theorem findBlock_some (l : List Elem) (raw : String) (b : BlockData)
    (h : findBlock l raw = some b) :
    b ∈ blocksOf l ∧ b.rawLogic = raw := by
  refine ⟨List.mem_of_find?_eq_some h, ?_⟩
  have := List.find?_some h
  simpa using this

theorem firstOccsAux_append (bs : List BlockData) (b : BlockData) :
    ∀ seen, firstOccsAux seen (bs ++ [b]) =
      firstOccsAux seen bs ++
        (if b.rawLogic ∈ seen ∨ b.rawLogic ∈ bs.map (·.rawLogic) then [] else [b]) := by
  induction bs with
  | nil =>
    intro seen
    simp only [List.nil_append, firstOccsAux, List.map_nil, List.not_mem_nil,
      or_false]
  | cons c cs ih =>
    intro seen
    simp only [List.cons_append, firstOccsAux, List.append_eq]
    by_cases hc : c.rawLogic ∈ seen
    · rw [if_pos hc, if_pos hc, ih seen]
      have hiff : (b.rawLogic ∈ seen ∨ b.rawLogic ∈ cs.map (·.rawLogic)) ↔
          (b.rawLogic ∈ seen ∨ b.rawLogic ∈ (c :: cs).map (·.rawLogic)) := by
        simp only [List.map_cons, List.mem_cons]
        constructor
        · tauto
        · rintro (h | h | h)
          · tauto
          · exact Or.inl (h ▸ hc)
          · tauto
      rw [if_congr hiff rfl rfl]
    · rw [if_neg hc, if_neg hc, ih (seen ++ [c.rawLogic])]
      have hiff : (b.rawLogic ∈ seen ++ [c.rawLogic] ∨ b.rawLogic ∈ cs.map (·.rawLogic)) ↔
          (b.rawLogic ∈ seen ∨ b.rawLogic ∈ (c :: cs).map (·.rawLogic)) := by
        simp only [List.mem_append, List.mem_singleton, List.map_cons, List.mem_cons]
        tauto
      rw [if_congr hiff rfl rfl]
      simp

/-- Case analysis on one iteration of the identification loop. -/
theorem identifyStep_shape (ma site : String) (st : IdState) (el : List Char) :
    ((identifyStep ma site st el).idfied = st.idfied ∧
      (identifyStep ma site st el).i = st.i) ∨
    (∃ e, (∀ b, e ≠ Elem.block b) ∧
      (identifyStep ma site st el).idfied = st.idfied ++ [e] ∧
      (identifyStep ma site st el).i = st.i) ∨
    (∃ bl, mkBlock ma site st.i ⟨el⟩ = .ok bl ∧
      findBlock st.idfied bl.rawLogic = none ∧
      (identifyStep ma site st el).idfied = st.idfied ++ [.block bl] ∧
      (identifyStep ma site st el).i = st.i + 1) ∨
    (∃ eb, eb ∈ blocksOf st.idfied ∧
      (identifyStep ma site st el).idfied = st.idfied ++ [.block eb] ∧
      (identifyStep ma site st el).i = st.i) := by
  unfold identifyStep
  split
  · refine Or.inr (Or.inl ⟨.openPar, ?_, rfl, rfl⟩)
    exact fun _ h => Elem.noConfusion h
  split
  · refine Or.inr (Or.inl ⟨.closePar, ?_, rfl, rfl⟩)
    exact fun _ h => Elem.noConfusion h
  split
  · refine Or.inr (Or.inl ⟨.andor ⟨el⟩, ?_, rfl, rfl⟩)
    exact fun _ h => Elem.noConfusion h
  split
  · refine Or.inr (Or.inl ⟨.notOp, ?_, rfl, rfl⟩)
    exact fun _ h => Elem.noConfusion h
  split
  · next bl hmk =>
    split
    · next eb hfind =>
      exact Or.inr (Or.inr (Or.inr
        ⟨eb, (findBlock_some _ _ _ hfind).1, rfl, rfl⟩))
    · next hfind =>
      exact Or.inr (Or.inr (Or.inl ⟨bl, hmk, hfind, rfl, rfl⟩))
  · exact Or.inl ⟨rfl, rfl⟩

/-- Invariant of the identification loop: all block entries with equal
raw text are the same Block, and the order numbers of the first
occurrences are exactly 0, 1, ..., i-1 in order of appearance. -/
theorem identify_inv (ma site : String) (els : List (List Char)) :
    ∀ st : IdState,
      ((∀ b ∈ blocksOf st.idfied, ∀ b2 ∈ blocksOf st.idfied,
        b.rawLogic = b2.rawLogic → b = b2) ∧
      (firstOccs (blocksOf st.idfied)).map (·.orderNr) = List.range st.i) →
      ((∀ b ∈ blocksOf (els.foldl (identifyStep ma site) st).idfied,
        ∀ b2 ∈ blocksOf (els.foldl (identifyStep ma site) st).idfied,
          b.rawLogic = b2.rawLogic → b = b2) ∧
      (firstOccs (blocksOf (els.foldl (identifyStep ma site) st).idfied)).map (·.orderNr)
        = List.range (els.foldl (identifyStep ma site) st).i) := by
  induction els with
  | nil => exact fun st h => h
  | cons el els ih =>
    intro st hst
    rw [List.foldl_cons]
    refine ih (identifyStep ma site st el) ?_
    rcases identifyStep_shape ma site st el with
      ⟨h1, h2⟩ | ⟨e, he, h1, h2⟩ | ⟨bl, hmk, hfind, h1, h2⟩ | ⟨eb, hmem, h1, h2⟩
    · rw [h1, h2]; exact hst
    · rw [h1, h2, blocksOf_append_nonblock _ _ he]; exact hst
    · have hnone := findBlock_none _ _ hfind
      have hshape := mkBlock_ok_shape ma site st.i ⟨el⟩ bl hmk
      rw [h1, h2, blocksOf_append_block]
      constructor
      · intro b hb b2 hb2 hbr
        rcases List.mem_append.mp hb with hbo | hbs
        · rcases List.mem_append.mp hb2 with gbo | gbs
          · exact hst.1 b hbo b2 gbo hbr
          · obtain rfl := List.mem_singleton.mp gbs
            exact absurd hbr (hnone b hbo)
        · rcases List.mem_append.mp hb2 with gbo | gbs
          · obtain rfl := List.mem_singleton.mp hbs
            exact absurd hbr.symm (hnone b2 gbo)
          · obtain rfl := List.mem_singleton.mp hbs
            obtain rfl := List.mem_singleton.mp gbs
            rfl
      · unfold firstOccs
        rw [firstOccsAux_append]
        rw [if_neg (by
          rintro (h | h)
          · simp at h
          · obtain ⟨b, hb, hbr⟩ := List.mem_map.mp h
            exact hnone b hb hbr)]
        simp only [List.map_append, List.map_cons, List.map_nil]
        rw [show (firstOccsAux [] (blocksOf st.idfied)).map (·.orderNr)
            = List.range st.i from hst.2]
        rw [hshape.2.1, List.range_succ]
    · rw [h1, h2, blocksOf_append_block]
      constructor
      · intro b hb b2 hb2 hbr
        rcases List.mem_append.mp hb with hbo | hbs
        · rcases List.mem_append.mp hb2 with gbo | gbs
          · exact hst.1 b hbo b2 gbo hbr
          · obtain rfl := List.mem_singleton.mp gbs
            exact hst.1 b hbo _ hmem hbr
        · rcases List.mem_append.mp hb2 with gbo | gbs
          · obtain rfl := List.mem_singleton.mp hbs
            exact hst.1 _ hmem b2 gbo hbr
          · obtain rfl := List.mem_singleton.mp hbs
            obtain rfl := List.mem_singleton.mp gbs
            rfl
      · unfold firstOccs
        rw [firstOccsAux_append]
        rw [if_pos (Or.inr (List.mem_map.mpr ⟨eb, hmem, rfl⟩))]
        simpa using hst.2

/-- C3 counterexample: in the leaf "a#x>1" the operator is not surrounded
by spaces, so the leaf parses as a SECONDARY block reference whose alias
part "x>1" fails identifier validation; parsing "a#x>1 and a#x>1"
therefore yields ZERO blocks (with errors recorded), not the one
deduplicated Block the claim asserts. -/
theorem c3_counterexample :
    (mkCondition "s" "m" "a#x>1 and a#x>1" 0 100).toOption.map
        (fun c => ((blocksOf c.conditionElements).isEmpty, c.blocks.isEmpty,
          c.errors.isEmpty))
      = some (true, true, false) := by decide

/-- C3 amended: for leaves that construct Blocks successfully, the dedup
of make_blocks guarantees that any two block entries with the same raw
leaf text are the very same Block (hence carry the same alias), and that
order numbers are allocated 0, 1, ... exactly at first occurrences in
left-to-right order.  The claim's own example must spell the operator
with surrounding spaces and use a station with a digit:
"a1#x > 1 and a1#x > 1" yields exactly one Block, referenced twice under
the alias m_0; "a#x>1 and a#x>1" yields no Blocks at all. -/
theorem c3_amended :
    (∀ ma site errs0 els,
      (∀ b ∈ blocksOf (identify ma site errs0 els).idfied,
        ∀ b2 ∈ blocksOf (identify ma site errs0 els).idfied,
          b.rawLogic = b2.rawLogic → b = b2) ∧
      (firstOccs (blocksOf (identify ma site errs0 els).idfied)).map (·.orderNr)
        = List.range (identify ma site errs0 els).i) ∧
    ((mkCondition "s" "m" "a1#x > 1 and a1#x > 1" 0 100).toOption.map
        (fun c => (c.blocks.length, (blocksOf c.conditionElements).map (·.aliasName)))
      = some (1, ["m_0", "m_0"])) := by
  constructor
  · intro ma site errs0 els
    exact identify_inv ma site els ⟨[], 0, errs0⟩
      ⟨fun b hb => absurd hb (by simp [blocksOf]), by simp [firstOccs, firstOccsAux, blocksOf]⟩
  · decide

theorem c3_amended_witness :
    (firstOccs (blocksOf (identify "m" "s" []
        ["a1#x > 1".data, "and".data, "a1#x > 1".data]).idfied)).map (·.orderNr)
      = List.range (identify "m" "s" []
        ["a1#x > 1".data, "and".data, "a1#x > 1".data]).i ∧
    (blocksOf (identify "m" "s" []
        ["a1#x > 1".data, "and".data, "a1#x > 1".data]).idfied).getD 0
        { rawLogic := "", masterAlias := "", parentSite := "", orderNr := 0,
          aliasName := "", secondary := true }
      = (blocksOf (identify "m" "s" []
        ["a1#x > 1".data, "and".data, "a1#x > 1".data]).idfied).getD 1
        { rawLogic := "", masterAlias := "", parentSite := "", orderNr := 0,
          aliasName := "", secondary := true } :=
  ⟨(c3_amended.1 "m" "s" [] ["a1#x > 1".data, "and".data, "a1#x > 1".data]).2,
    (c3_amended.1 "m" "s" [] ["a1#x > 1".data, "and".data, "a1#x > 1".data]).1
      _ (by decide) _ (by decide) (by decide)⟩

/-! ## Lemmas for the round-trip property -/

theorem strData_append (a b : String) : (a ++ b).data = a.data ++ b.data := by
  cases a; cases b; rfl

theorem despaceL_append (a b : List Char) :
    despaceL (a ++ b) = despaceL a ++ despaceL b := by
  simp [despaceL, List.filter_append]

theorem despaceL_idem (cs : List Char) : despaceL (despaceL cs) = despaceL cs := by
  simp [despaceL, List.filter_filter]

/-- The concatenation of all split pieces (fragments and captured
delimiters) is the input: re.split loses no characters. -/
theorem splitRawAux_flatten (prev : Option Char) (cs acc : List Char) :
    (splitRawAux prev cs acc).flatten = acc.reverse ++ cs := by
  induction prev, cs, acc using splitRawAux.induct <;>
    (simp_all [splitRawAux]) <;> (split <;> simp_all)

theorem despaceL_dropWhile (cs : List Char) :
    despaceL (cs.dropWhile isPySpace) = despaceL cs := by
  induction cs with
  | nil => rfl
  | cons c rest ih =>
    by_cases h : isPySpace c
    · simp [List.dropWhile, h, despaceL, ih]
      simp [despaceL] at ih
      exact ih
    · simp [List.dropWhile, h]

theorem despaceL_reverse (cs : List Char) :
    despaceL cs.reverse = (despaceL cs).reverse := by
  simp [despaceL, List.filter_reverse]

theorem despaceL_strip (cs : List Char) :
    despaceL (pyStripL cs) = despaceL cs := by
  unfold pyStripL
  rw [despaceL_reverse, despaceL_dropWhile, despaceL_reverse,
    List.reverse_reverse, despaceL_dropWhile]

theorem splitWsAux_flatten (cs : List Char) :
    ∀ cur, (splitWsAux cs cur).flatten = cur.reverse ++ despaceL cs := by
  induction cs with
  | nil =>
    intro cur
    unfold splitWsAux
    split <;> simp_all [despaceL]
  | cons c rest ih =>
    intro cur
    unfold splitWsAux
    by_cases h : isPySpace c
    · rw [if_pos h]
      have hd : despaceL (c :: rest) = despaceL rest := by simp [despaceL, h]
      split <;> simp_all
    · rw [if_neg h]
      have hd : despaceL (c :: rest) = c :: despaceL rest := by simp [despaceL, h]
      rw [ih (c :: cur), hd]
      simp

theorem intercalate_sp_despace (ps : List (List Char)) :
    despaceL (intercalateL [' '] ps) = despaceL ps.flatten := by
  induction ps with
  | nil => rfl
  | cons x ps ih =>
    cases ps with
    | nil => simp [intercalateL]
    | cons y rest =>
      rw [show intercalateL [' '] (x :: y :: rest)
          = x ++ [' '] ++ intercalateL [' '] (y :: rest) from rfl]
      rw [despaceL_append, despaceL_append, ih]
      simp [despaceL, despaceL_append, isPySpace]

theorem despaceL_normalizeWs (cs : List Char) :
    despaceL (normalizeWsL cs) = despaceL cs := by
  unfold normalizeWsL
  rw [intercalate_sp_despace]
  rw [show (pySplitWs cs).flatten = despaceL cs from by
    simpa using splitWsAux_flatten cs []]
  exact despaceL_idem cs

/-- Whitespace-stripped character content of a list of elements. -/
def despJoin (els : List (List Char)) : List Char := (els.map despaceL).flatten

theorem despJoin_append (a b : List (List Char)) :
    despJoin (a ++ b) = despJoin a ++ despJoin b := by
  simp [despJoin]

theorem despJoin_flatten (l : List (List Char)) :
    despJoin l = despaceL l.flatten := by
  induction l with
  | nil => rfl
  | cons x l ih => simp [despJoin, despaceL_append] at *; simp [ih]

theorem despJoin_strip_filter (l : List (List Char)) :
    despJoin ((l.map pyStripL).filter (· ≠ [])) = despJoin l := by
  induction l with
  | nil => rfl
  | cons x l ih =>
    by_cases h : pyStripL x = []
    · have hx : despaceL x = [] := by
        have := despaceL_strip x
        rw [h] at this
        exact this.symm
      simp [List.filter, h, despJoin, hx] at *
      exact ih
    · simp [List.filter, h, despJoin] at *
      rw [despaceL_strip]
      simp [ih]

theorem splitCond_despJoin (v : List Char) :
    despJoin (splitCondL v) = despaceL v := by
  unfold splitCondL
  rw [despJoin_strip_filter, despJoin_flatten]
  rw [show (splitRawAux none v []).flatten = v from by
    simpa using splitRawAux_flatten none v []]

theorem mergeInAux_despJoin (els : List (List Char)) :
    ∀ revAcc, despJoin (mergeInAux revAcc els) = despJoin revAcc.reverse ++ despJoin els := by
  induction els with
  | nil => intro revAcc; simp [mergeInAux, despJoin]
  | cons el rest ih =>
    intro revAcc
    cases revAcc with
    | nil =>
      rw [show mergeInAux [] (el :: rest) = mergeInAux [el] rest from rfl, ih]
      simp [despJoin]
    | cons last others =>
      unfold mergeInAux
      split
      · rw [ih]
        simp [despJoin, despaceL_append, despaceL, isPySpace]
      · split
        · rw [ih]
          simp [despJoin, despaceL_append]
        · rw [ih]
          simp [despJoin, despaceL_append]

theorem mergeIn_despJoin (els : List (List Char)) :
    despJoin (mergeIn els) = despJoin els := by
  unfold mergeIn
  rw [mergeInAux_despJoin]
  rfl

theorem addCondErr_ne_nil (l : List CondErr) (e : CondErr) : addCondErr l e ≠ [] := by
  unfold addCondErr
  split
  · next h => exact fun hl => absurd (hl ▸ h) (List.not_mem_nil e)
  · simp

/-- Character content of the substituted-back reconstruction. -/
def rawChars (l : List Elem) : List Char := (l.map fun e => (rawPart e).data).flatten

theorem rawChars_append (l : List Elem) (e : Elem) :
    rawChars (l ++ [e]) = rawChars l ++ (rawPart e).data := by
  simp [rawChars]

theorem despace_andor_part (el : List Char) :
    despaceL (rawPart (.andor ⟨el⟩)).data = despaceL el := by
  rw [show rawPart (.andor ⟨el⟩) = " " ++ (⟨el⟩ : String) ++ " " from rfl]
  rw [strData_append, strData_append]
  rw [show (" " : String).data = [' '] from rfl, show (⟨el⟩ : String).data = el from rfl]
  rw [despaceL_append, despaceL_append]
  simp [despaceL, isPySpace]

/-- A step of the identification loop that leaves the error list empty
came from an error-free branch, and the raw reconstruction of the new
element list extends the old one by exactly the element's characters
(modulo whitespace). -/
theorem identifyStep_ok_despace (ma site : String) (st : IdState) (el : List Char)
    (h : (identifyStep ma site st el).errs = []) :
    st.errs = [] ∧
    despaceL (rawChars (identifyStep ma site st el).idfied)
      = despaceL (rawChars st.idfied) ++ despaceL el := by
  unfold identifyStep at h ⊢
  by_cases hc1 : el = "(".data
  · rw [if_pos hc1] at h ⊢
    refine ⟨h, ?_⟩
    show despaceL (rawChars (st.idfied ++ [Elem.openPar]))
      = despaceL (rawChars st.idfied) ++ despaceL el
    rw [rawChars_append, despaceL_append, hc1]
    rfl
  rw [if_neg hc1] at h ⊢
  by_cases hc2 : el = ")".data
  · rw [if_pos hc2] at h ⊢
    refine ⟨h, ?_⟩
    show despaceL (rawChars (st.idfied ++ [Elem.closePar]))
      = despaceL (rawChars st.idfied) ++ despaceL el
    rw [rawChars_append, despaceL_append, hc2]
    rfl
  rw [if_neg hc2] at h ⊢
  by_cases hc3 : (decide (el = "and".data) || decide (el = "or".data)) = true
  · rw [if_pos hc3] at h ⊢
    refine ⟨h, ?_⟩
    show despaceL (rawChars (st.idfied ++ [Elem.andor ⟨el⟩]))
      = despaceL (rawChars st.idfied) ++ despaceL el
    rw [rawChars_append, despaceL_append, despace_andor_part]
  rw [if_neg hc3] at h ⊢
  by_cases hc4 : el = "not".data
  · rw [if_pos hc4] at h ⊢
    refine ⟨h, ?_⟩
    show despaceL (rawChars (st.idfied ++ [Elem.notOp]))
      = despaceL (rawChars st.idfied) ++ despaceL el
    rw [rawChars_append, despaceL_append, hc4]
    rfl
  rw [if_neg hc4] at h ⊢
  cases hmk : mkBlock ma site st.i ⟨el⟩ with
  | error e =>
    rw [hmk] at h
    exact absurd h (addCondErr_ne_nil _ _)
  | ok bl =>
    rw [hmk] at h
    simp only [] at h
    have hraw : bl.rawLogic = ⟨el⟩ := (mkBlock_ok_shape ma site st.i ⟨el⟩ bl hmk).1
    show st.errs = [] ∧
      despaceL (rawChars
        (match findBlock st.idfied bl.rawLogic with
          | some eb =>
            ({ idfied := st.idfied ++ [Elem.block eb], i := st.i,
               errs := st.errs } : IdState)
          | none =>
            { idfied := st.idfied ++ [Elem.block bl], i := st.i + 1,
              errs := st.errs }).idfied)
        = despaceL (rawChars st.idfied) ++ despaceL el
    cases hfind : findBlock st.idfied bl.rawLogic with
    | some eb =>
      rw [hfind] at h
      refine ⟨h, ?_⟩
      show despaceL (rawChars (st.idfied ++ [Elem.block eb]))
        = despaceL (rawChars st.idfied) ++ despaceL el
      rw [rawChars_append, despaceL_append]
      rw [show rawPart (.block eb) = eb.rawLogic from rfl]
      rw [(findBlock_some _ _ _ hfind).2, hraw]
    | none =>
      rw [hfind] at h
      refine ⟨h, ?_⟩
      show despaceL (rawChars (st.idfied ++ [Elem.block bl]))
        = despaceL (rawChars st.idfied) ++ despaceL el
      rw [rawChars_append, despaceL_append]
      rw [show rawPart (.block bl) = bl.rawLogic from rfl, hraw]

theorem foldl_identify_errs (ma site : String) (els : List (List Char)) :
    ∀ st : IdState, (els.foldl (identifyStep ma site) st).errs = [] → st.errs = [] := by
  induction els with
  | nil => exact fun st h => h
  | cons el els ih =>
    intro st h
    rw [List.foldl_cons] at h
    exact (identifyStep_ok_despace ma site st el (ih _ h)).1

theorem identify_rawChars (ma site : String) (els : List (List Char)) :
    ∀ st : IdState, (els.foldl (identifyStep ma site) st).errs = [] →
      despaceL (rawChars (els.foldl (identifyStep ma site) st).idfied)
        = despaceL (rawChars st.idfied) ++ despJoin els := by
  induction els with
  | nil => intro st _; simp [despJoin]
  | cons el els ih =>
    intro st h
    rw [List.foldl_cons] at h ⊢
    have h1 : (identifyStep ma site st el).errs = [] := foldl_identify_errs ma site els _ h
    obtain ⟨_, hstep⟩ := identifyStep_ok_despace ma site st el h1
    rw [ih _ h, hstep]
    simp [despJoin, List.append_assoc]

theorem strJoin_data (l : List String) :
    (String.join l).data = (l.map String.data).flatten := by
  have hgen : ∀ (l : List String) (s : String),
      (l.foldl (· ++ ·) s).data = s.data ++ (l.map String.data).flatten := by
    intro l
    induction l with
    | nil => intro s; simp
    | cons x l ih => intro s; rw [List.foldl_cons, ih, strData_append]; simp
  have := hgen l ""
  simpa [String.join] using this

theorem foldl_addCondErr_nil (l : List CondErr) (init : List CondErr)
    (h : l.foldl addCondErr init = []) : init = [] ∧ l = [] := by
  induction l generalizing init with
  | nil => exact ⟨h, rfl⟩
  | cons e l ih =>
    rw [List.foldl_cons] at h
    exact absurd (ih _ h).1 (addCondErr_ne_nil _ _)

theorem despace_eq_of_data (a b : String) (h : despaceL a.data = despaceL b.data) :
    despace a = despace b := congrArg String.mk h

theorem substBack_data (c : Condition) :
    (substBack c).data = rawChars c.conditionElements := by
  unfold substBack rawChars
  rw [strJoin_data, List.map_map]
  rfl

/-- Core of the round trip: when identification reports no errors, the
whitespace-stripped characters of the identified elements' raw texts are
exactly those of the condition string. -/
theorem c8core (ma s : String) (condData : List Char) (errs0 : List CondErr)
    (hid : (identify ma s errs0 (mergeIn (splitCondL (normalizeWsL condData)))).errs = []) :
    despaceL (rawChars
        (identify ma s errs0 (mergeIn (splitCondL (normalizeWsL condData)))).idfied)
      = despaceL condData := by
  unfold identify at hid ⊢
  rw [identify_rawChars ma s _ _ hid]
  rw [show rawChars ((⟨[], 0, errs0⟩ : IdState)).idfied = [] from rfl]
  rw [mergeIn_despJoin, splitCond_despJoin, despaceL_normalizeWs]
  rfl

set_option maxHeartbeats 2000000 in
/-- C8: for any condition string accepted without errors, substituting
each Block's alias in the alias expression back with that Block's
original leaf text reproduces the (stored, normalized) condition string
up to whitespace: the two strings are equal once all whitespace is
removed.  (Spacing adjacent to parentheses and inside re-joined
in-tuples is normalized by the tokenizer, so equality holds modulo
whitespace, not verbatim.) -/
theorem c8_round_trip (site ma raw : String) (tf tu : Int) (c : Condition)
    (hc : mkCondition site ma raw tf tu = .ok c) (he : c.errors = []) :
    despace (substBack c) = despace c.condition := by
  simp only [mkCondition] at hc
  split at hc
  · exact absurd hc (by simp)
  split at hc
  · exact absurd hc (by simp)
  -- the parenthesis-balance if, then the has_errors if
  split at hc
  all_goals (
    split at hc
    · injection hc with hc
      rw [← hc] at he
      exact absurd he (addCondErr_ne_nil _ _)
    · injection hc with hc
      subst hc
      have hid := (foldl_addCondErr_nil _ _ he).1
      exact despace_eq_of_data _ _ (by rw [substBack_data]; exact c8core _ _ _ _ hid))

theorem c8_round_trip_witness :
    ∃ c, mkCondition "s" "m" "(a1#x > 1 and b) or not c" 0 100 = .ok c ∧
      c.errors = [] ∧ despace (substBack c) = despace c.condition := by
  refine ⟨_, rfl, ?_, ?_⟩
  · decide
  · exact c8_round_trip "s" "m" "(a1#x > 1 and b) or not c" 0 100 _ rfl (by decide)
